import Mathlib

/-!
Verification of the reflection transformer in
`src/external/build/lib/dts-parse.js`.

The `Transform` class walks a typedoc reflection tree, annotates every
visited node with computed fields (`_name`, `_feature`, optionally
`_event`), prunes private and underscore-prefixed children, and collects
"interesting" namespace nodes into a mapping keyed by fully-qualified
dotted name.  Below is a shallow embedding of the relevant typedoc JSON
shapes and of the transformer itself, followed by theorems about the
behaviour that the design document claims.
-/

set_option linter.unusedVariables false

namespace DtsParse

mutual

inductive TypeDesc : Type where
  | reference (name : String) (typeArguments : Option (List TypeDesc)) : TypeDesc
  | intrinsic (name : String) : TypeDesc
  | reflection (declaration : Option ReflDecl) : TypeDesc
  | otherType : TypeDesc

inductive ReflDecl : Type where
  | mk (signatures : Option (List Signature)) : ReflDecl

inductive Signature : Type where
  | mk (parameters : Option (List Param)) : Signature

inductive Param : Type where
  | mk (id : Int) (name : String) (kind : Nat) (type : Option TypeDesc) : Param

end

/-- The optional `flags` record of a typedoc declaration node. -/
structure Flags : Type where
  isPrivate : Option Bool

/-- One comment tag: a tag name together with its text. -/
structure Tag : Type where
  tag : String
  text : String

/-- The optional `comment` record of a node; its `tags` list is optional too. -/
structure Comment : Type where
  tags : Option (List Tag)

/-- The shared deprecation record built by `_processTags`. -/
structure Deprecated : Type where
  value : String
  since : Option String

/-- `FeatureInfo` as produced by `_processTags`: `channel` is always
present, every other field only appears when a tag sets it. -/
structure FeatureInfo : Type where
  channel : String
  platformAppsOnly : Option Bool := none
  since : Option String := none
  permissions : Option (List String) := none
  manifestKeys : Option (List String) := none
  deprecated : Option Deprecated := none
  minManifest : Option String := none
  maxManifest : Option String := none
  disallowServiceWorkers : Option Bool := none

/-- The `_event` record attached to recognized event references. -/
structure EventInfo : Type where
  addListenerParameters : Option (List Param)

mutual

/-- A typedoc `DeclarationReflection`, restricted to the fields the
transformer reads or writes.  The last three constructor arguments are
the computed fields `_name`, `_feature` and `_event` (absent on parser
output, filled in by `visit`). -/
inductive Node : Type where
  | mk (name : String) (kindString : Option String) (children : Option NodeList)
       (flags : Option Flags) (comment : Option Comment) (type : Option TypeDesc)
       ( _name : Option String) ( _feature : Option FeatureInfo) ( _event : Option EventInfo) : Node

inductive NodeList : Type where
  | nil : NodeList
  | cons (c : Node) (rest : NodeList) : NodeList

end

/-- Turn a list literal into a child sequence. -/
def NodeList.ofList : List Node → NodeList
  | [] => .nil
  | c :: rest => .cons c (NodeList.ofList rest)

/-- The child sequence as a plain list. -/
def NodeList.toList : NodeList → List Node
  | .nil => []
  | .cons c rest => c :: rest.toList

/-- JS `Array.prototype.some` over a child sequence. -/
def NodeList.any : NodeList → (Node → Bool) → Bool
  | .nil, _ => false
  | .cons c rest, p => p c || rest.any p

/-- Concatenation of child sequences. -/
def NodeList.append : NodeList → NodeList → NodeList
  | .nil, l₂ => l₂
  | .cons c rest, l₂ => .cons c (rest.append l₂)

/-- Plain structural induction over a child sequence. -/
@[induction_eliminator]
def NodeList.ind {motive : NodeList → Prop} (hnil : motive .nil)
    (hcons : ∀ c rest, motive rest → motive (.cons c rest)) : ∀ l, motive l :=
  fun l =>
    @NodeList.rec (fun _ => True) motive (fun _ => True)
      (fun _ _ _ _ _ _ _ _ _ _ => trivial) hnil
      (fun c rest _ ih => hcons c rest ih) trivial (fun _ _ => trivial) l

def Node.name : Node → String
  | .mk n _ _ _ _ _ _ _ _ => n

def Node.kindString : Node → Option String
  | .mk _ k _ _ _ _ _ _ _ => k

def Node.children : Node → Option NodeList
  | .mk _ _ c _ _ _ _ _ _ => c

def Node.flags : Node → Option Flags
  | .mk _ _ _ f _ _ _ _ _ => f

def Node.comment : Node → Option Comment
  | .mk _ _ _ _ c _ _ _ _ => c

def Node.type : Node → Option TypeDesc
  | .mk _ _ _ _ _ t _ _ _ => t

def Node.nameC : Node → Option String
  | .mk _ _ _ _ _ _ a _ _ => a

def Node.featureC : Node → Option FeatureInfo
  | .mk _ _ _ _ _ _ _ b _ => b

def Node.eventC : Node → Option EventInfo
  | .mk _ _ _ _ _ _ _ _ e => e

/-- `extendedNode._name = fqdn; extendedNode._feature = ...` in `visit`. -/
def Node.annotate : Node → String → FeatureInfo → Node
  | .mk nm k cs f c t _ _ e, fq, fi => .mk nm k cs f c t (some fq) (some fi) e

/-- `extendedNode._event = extendedEvent` in `visit`. -/
def Node.setEvent : Node → EventInfo → Node
  | .mk nm k cs f c t a b _, ev => .mk nm k cs f c t a b (some ev)

/-- `node.children = children` at the end of `walk`. -/
def Node.setChildren : Node → Option NodeList → Node
  | .mk nm k _ f c t a b e, cs => .mk nm k cs f c t a b e

/-- `const chromeEventRefTypes = ['CustomChromeEvent', 'events.Event', 'Event']`. -/
def chromeEventRefTypes : List String := ["CustomChromeEvent", "events.Event", "Event"]

/-- JS `String.prototype.startsWith`, written over the character list so
that it reduces in the kernel. -/
def strStartsWith (s pre : String) : Bool :=
  List.isPrefixOf pre.data s.data

/-- JS `String.prototype.trim`: drop whitespace from both ends. -/
def jsTrim (s : String) : String :=
  ⟨((s.data.dropWhile Char.isWhitespace).reverse.dropWhile Char.isWhitespace).reverse⟩

namespace Transform

/-- `node?.comment?.tags ?? []`. -/
def commentTags (node : Node) : List Tag :=
  (node.comment.bind Comment.tags).getD []

/-- `!(node.flags?.isPrivate || node.name.startsWith('_'))`: the child filter. -/
def filter (node : Node) : Bool :=
  !(((node.flags.bind Flags.isPrivate).getD false) || strStartsWith node.name "_")

/-- One iteration of the `tags.forEach` switch in `_processTags`.  The
state carries the output record, the shared `deprecated` record, and
whether that record has been attached to the output. -/
def tagStep : FeatureInfo × Deprecated × Bool → Tag → FeatureInfo × Deprecated × Bool :=
  fun (out, dep, att) t =>
    let text := jsTrim t.text
    match t.tag with
    | "chrome-platform-apps" => ({ out with platformAppsOnly := some true }, dep, att)
    | "since" => ({ out with since := some text }, dep, att)
    | "chrome-channel" => ({ out with channel := text }, dep, att)
    | "chrome-permission" =>
        ({ out with permissions := some (out.permissions.getD [] ++ [text]) }, dep, att)
    | "chrome-manifest" =>
        ({ out with manifestKeys := some (out.manifestKeys.getD [] ++ [text]) }, dep, att)
    | "deprecated" => (out, { dep with value := text }, true)
    | "chrome-deprecated-since" => (out, { dep with since := some text }, true)
    | "chrome-min-manifest" => ({ out with minManifest := some text }, dep, att)
    | "chrome-max-manifest" => ({ out with maxManifest := some text }, dep, att)
    | "chrome-disallow-service-workers" =>
        ({ out with disallowServiceWorkers := some true }, dep, att)
    | _ => (out, dep, att)

/-- `_processTags`: fold the tag switch over the tag list starting from
`{channel: 'stable'}`; since the `deprecated` record is shared and
mutated in place, the output's `deprecated` field holds the record's
final state whenever some tag attached it. -/
def processTags (tags : List Tag) : FeatureInfo :=
  match tags.foldl tagStep ({ channel := "stable" }, { value := "", since := none }, false) with
  | (out, dep, att) => if att then { out with deprecated := some dep } else out

/-- `(node.children ?? []).some(x => x.kindString !== 'Namespace')`. -/
def hasNonNamespaceChild (node : Node) : Bool :=
  (node.children.getD .nil).any (fun x => decide (x.kindString ≠ some "Namespace"))

/-- The fully-qualified name computed at the top of `visit`: names of
the parents whose `kindString` is not `Project`, then the node's own
name, empty segments dropped, joined with dots. -/
def fqdnOf (node : Node) (parents : List Node) : String :=
  let parts :=
    (parents.filter (fun parent => decide (parent.kindString ≠ some "Project"))).map Node.name
      ++ [node.name]
  String.intercalate "." (parts.filter (fun x => decide (x ≠ "")))

/-- `node.type.typeArguments?.[0]`. -/
def firstArgOf : Option (List TypeDesc) → Option TypeDesc
  | some (a :: _) => some a
  | _ => none

/-- `arg.declaration?.signatures?.[0]?.parameters` in the
`CustomChromeEvent` branch (the unchecked cast means any non-reflection
argument simply yields no parameters). -/
def customParams : TypeDesc → Option (List Param)
  | .reflection (some (.mk (some (.mk ps :: _)))) => ps
  | _ => none

/-- The event-reference extraction at the end of `visit`, as a function
of `node.type`: returns `none` when the type is not a recognized event
reference, the `_event` record to attach when it is, and an error for
the two fatal cases. -/
def eventInfoOf : Option TypeDesc → Except String (Option EventInfo)
  | some (.reference nm targs) =>
    if nm ∈ chromeEventRefTypes then
      match firstArgOf targs with
      | none => .error ("got reference to " ++ nm ++ " without argument")
      | some firstArgument =>
        if nm = "CustomChromeEvent" then
          .ok (some ⟨customParams firstArgument⟩)
        else
          match firstArgument with
          | .intrinsic iname =>
            if iname = "never" then .ok (some ⟨none⟩)
            else .error "unexpected first argument for declarative event"
          | _ => .ok (some ⟨some [Param.mk (-1) "callback" 32768 (some firstArgument)]⟩)
    else .ok none
  | _ => .ok none

/-- `visit(node, parents)`: returns the node after its in-place
mutations together with the registration this visit performed (the
fully-qualified name under which the node was stored in
`this.namespaces`, if any).  A namespace without a non-namespace child
returns early: unregistered and unannotated. -/
def visit (node : Node) (parents : List Node) : Except String (Node × Option String) :=
  let fqdn := fqdnOf node parents
  if node.kindString = some "Namespace" ∧ hasNonNamespaceChild node = false then
    .ok (node, none)
  else
    let regKey : Option String :=
      if node.kindString = some "Namespace" then some fqdn else none
    let node1 := node.annotate fqdn (processTags (commentTags node))
    match eventInfoOf node.type with
    | .error e => .error e
    | .ok none => .ok (node1, regKey)
    | .ok (some ev) => .ok (node1.setEvent ev, regKey)

/-- The registry entry contributed by one visit: since JS stores a
reference that is mutated by the rest of the walk, the entry's value is
the node's final transformed state. -/
def regEntry (regKey : Option String) (n : Node) : List (String × Node) :=
  match regKey with
  | some k => [(k, n)]
  | none => []

mutual

/-- `walk(node, parents)`: visit the node, then filter its children and
recurse into the survivors, replacing the child list with the filtered
(and transformed) one.  Returns the transformed node and the ordered
list of registrations performed in this subtree.  (The source calls
`visit` once before testing `node.children`; the two arms below both
start with that same call, they only differ in what follows it.) -/
def walk (node : Node) (parents : List Node) : Except String (Node × List (String × Node)) :=
  match node with
  | .mk nm k none f c t a b e =>
    match visit (Node.mk nm k none f c t a b e) parents with
    | .error err => .error err
    | .ok (vn, regKey) => .ok (vn, regEntry regKey vn)
  | .mk nm k (some cs) f c t a b e =>
    match visit (Node.mk nm k (some cs) f c t a b e) parents with
    | .error err => .error err
    | .ok (vn, regKey) =>
      match walkList cs (parents ++ [vn]) with
      | .error err => .error err
      | .ok (cs', sub) =>
        let n' := vn.setChildren (some cs')
        .ok (n', regEntry regKey n' ++ sub)
termination_by structural node

/-- The `for (const c of children)` loop over the filtered children:
a child rejected by `filter` is dropped without being walked. -/
def walkList (l : NodeList) (parents : List Node) :
    Except String (NodeList × List (String × Node)) :=
  match l with
  | .nil => .ok (.nil, [])
  | .cons c rest =>
    if filter c then
      match walk c parents with
      | .error e => .error e
      | .ok (c', sub) =>
        match walkList rest parents with
        | .error e => .error e
        | .ok (cs', sub') => .ok (.cons c' cs', sub ++ sub')
    else walkList rest parents
termination_by structural l

end

/-- JS object assignment `m[k] = v`: overwrite in place when the key is
present, append otherwise. -/
def setKey (m : List (String × Node)) (k : String) (v : Node) : List (String × Node) :=
  if m.any (fun p => decide (p.1 = k)) then
    m.map (fun p => if p.1 = k then (k, v) else p)
  else m ++ [(k, v)]

/-- `run()`: walk the project and return `this.namespaces`, obtained by
folding the ordered registrations into a JS object. -/
def run (project : Node) : Except String (List (String × Node)) :=
  match walk project [] with
  | .error e => .error e
  | .ok (_, entries) => .ok (entries.foldl (fun m kv => setKey m kv.1 kv.2) [])

end Transform

open Transform

/-- The visit early-return condition: a namespace node without any
non-namespace child (registration and annotation are both skipped). -/
def earlyExit (node : Node) : Bool :=
  decide (node.kindString = some "Namespace") && !hasNonNamespaceChild node

/-- A node the visit registers: a namespace with a non-namespace child. -/
def qualifies (node : Node) : Bool :=
  decide (node.kindString = some "Namespace") && hasNonNamespaceChild node

/-- The computed `_event.addListenerParameters` of a node, if any. -/
def eventParams (node : Node) : Option (List Param) :=
  node.eventC.bind EventInfo.addListenerParameters

/-- The name and kind of a node: all that `visit` reads from an ancestor. -/
def pnk (node : Node) : String × Option String :=
  (node.name, node.kindString)

/-- Spec wording for the fatal type patterns, restricted as the code
restricts them: a recognized event reference with no type argument, or a
reference named `events.Event` or `Event` (not `CustomChromeEvent`)
whose first type argument is an intrinsic type not named `never`. -/
def typeFatal : Option TypeDesc → Bool
  | some (.reference nm targs) =>
    decide (nm ∈ chromeEventRefTypes) &&
      (match firstArgOf targs with
       | none => true
       | some a =>
         if nm = "CustomChromeEvent" then false
         else
           match a with
           | .intrinsic iname => decide (iname ≠ "never")
           | _ => false)
  | _ => false

mutual

/-- Whether the traversal of this subtree hits a fatal error: the node
itself is fatal when it is not early-returned and its type matches a
fatal pattern; otherwise some retained child's subtree is. -/
def hasFatal (node : Node) : Bool :=
  match node with
  | .mk nm k none f c t a b e =>
    !earlyExit (Node.mk nm k none f c t a b e) && typeFatal t
  | .mk nm k (some cs) f c t a b e =>
    (!earlyExit (Node.mk nm k (some cs) f c t a b e) && typeFatal t) || hasFatalList cs
termination_by structural node

def hasFatalList (l : NodeList) : Bool :=
  match l with
  | .nil => false
  | .cons c rest => (filter c && hasFatal c) || hasFatalList rest
termination_by structural l

end

mutual

/-- Spec wording for the mapping keys: the fully-qualified names of the
namespace nodes reached by the traversal (through retained children
only) that have at least one non-namespace child. -/
def reachedKeys (node : Node) (parents : List Node) : List String :=
  match node with
  | .mk nm k none f c t a b e =>
    if qualifies (Node.mk nm k none f c t a b e) then
      [Transform.fqdnOf (Node.mk nm k none f c t a b e) parents]
    else []
  | .mk nm k (some cs) f c t a b e =>
    (if qualifies (Node.mk nm k (some cs) f c t a b e) then
      [Transform.fqdnOf (Node.mk nm k (some cs) f c t a b e) parents]
    else []) ++
      reachedKeysList cs (parents ++ [Node.mk nm k (some cs) f c t a b e])
termination_by structural node

def reachedKeysList (l : NodeList) (parents : List Node) : List String :=
  match l with
  | .nil => []
  | .cons c rest =>
    (if filter c then reachedKeys c parents else []) ++ reachedKeysList rest parents
termination_by structural l

end

/-- A node that either carries both computed fields `_name` and
`_feature`, or is a namespace node all of whose (retained) children are
namespaces. -/
def annOrPure (node : Node) : Bool :=
  (node.nameC.isSome && node.featureC.isSome) ||
    (decide (node.kindString = some "Namespace") && !Transform.hasNonNamespaceChild node)

mutual

/-- The annotation invariant on an output tree: every node satisfies
`annOrPure`, recursively. -/
def goodOut (node : Node) : Bool :=
  match node with
  | .mk nm k none f c t a b e =>
    annOrPure (Node.mk nm k none f c t a b e)
  | .mk nm k (some cs) f c t a b e =>
    annOrPure (Node.mk nm k (some cs) f c t a b e) && goodOutList cs
termination_by structural node

def goodOutList (l : NodeList) : Bool :=
  match l with
  | .nil => true
  | .cons c rest => goodOut c && goodOutList rest
termination_by structural l

end

/-- The trimmed texts of the `chrome-permission` tags, in order. -/
def permTexts (tags : List Tag) : List String :=
  tags.filterMap (fun t => if t.tag = "chrome-permission" then some (jsTrim t.text) else none)

/-- The trimmed texts of the `chrome-channel` tags, in order. -/
def channelTexts (tags : List Tag) : List String :=
  tags.filterMap (fun t => if t.tag = "chrome-channel" then some (jsTrim t.text) else none)

/-- A parser-output node: name, kind, children, flags, comment and type,
with no computed fields attached yet. -/
def mkNode (name : String) (kind : Option String) (children : Option NodeList := none)
    (flags : Option Flags := none) (comment : Option Comment := none)
    (ty : Option TypeDesc := none) : Node :=
  .mk name kind children flags comment ty none none none

/-- `_feature` of a node with no recognized tags. -/
def stableFI : FeatureInfo := { channel := "stable" }

/-! Concrete input trees and their transforms, used below to exhibit
counterexamples and to instantiate the conditional theorems. -/

def wIface : Node := mkNode "I" (some "Interface")

def wNs : Node := mkNode "a" (some "Namespace") (some (NodeList.ofList [wIface]))

def wRoot : Node := mkNode "" (some "Project") (some (NodeList.ofList [wNs]))

def wIfaceOut : Node :=
  .mk "I" (some "Interface") none none none none (some "a.I") (some stableFI) none

def wNsOut : Node :=
  .mk "a" (some "Namespace") (some (NodeList.ofList [wIfaceOut])) none none none (some "a") (some stableFI) none

def wRootOut : Node :=
  .mk "" (some "Project") (some (NodeList.ofList [wNsOut])) none none none (some "") (some stableFI) none

def wEntries : List (String × Node) := [("a", wNsOut)]

def c1Iface : Node := mkNode "I" (some "Interface")

def c1Hidden : Node := mkNode "_api" (some "Namespace") (some (NodeList.ofList [c1Iface]))

def c1Root : Node := mkNode "" (some "Project") (some (NodeList.ofList [c1Hidden]))

def c2Iface : Node := mkNode "I" (some "Interface")

def c2NsA : Node := mkNode "a" (some "Namespace") (some (NodeList.ofList [c2Iface]))

def c2Outer : Node := mkNode "outer" (some "Namespace") (some (NodeList.ofList [c2NsA]))

def c2Root : Node := mkNode "" (some "Project") (some (NodeList.ofList [c2Outer]))

def c2IfaceOut : Node :=
  .mk "I" (some "Interface") none none none none (some "outer.a.I") (some stableFI) none

def c2NsAOut : Node :=
  .mk "a" (some "Namespace") (some (NodeList.ofList [c2IfaceOut])) none none none (some "outer.a") (some stableFI) none

def c2OuterOut : Node :=
  .mk "outer" (some "Namespace") (some (NodeList.ofList [c2NsAOut])) none none none none none none

def c2RootOut : Node :=
  .mk "" (some "Project") (some (NodeList.ofList [c2OuterOut])) none none none (some "") (some stableFI) none

def c2Entries : List (String × Node) := [("outer.a", c2NsAOut)]

def c3Ty : TypeDesc := .reference "CustomChromeEvent" (some [.intrinsic "boolean"])

def c3Ev : Node := mkNode "onFoo" (some "Property") none none none (some c3Ty)

def c3Ns : Node := mkNode "api" (some "Namespace") (some (NodeList.ofList [c3Ev]))

def c3Root : Node := mkNode "" (some "Project") (some (NodeList.ofList [c3Ns]))

def c3EvOut : Node :=
  .mk "onFoo" (some "Property") none none none (some c3Ty) (some "api.onFoo") (some stableFI)
    (some ⟨none⟩)

def c3NsOut : Node :=
  .mk "api" (some "Namespace") (some (NodeList.ofList [c3EvOut])) none none none (some "api") (some stableFI) none

def c3Map : List (String × Node) := [("api", c3NsOut)]

def c6Ty : TypeDesc := .reference "Event" (some [.reference "T" none])

def c6Inner : Node := mkNode "inner" (some "Namespace")

def c6Ns : Node := mkNode "evns" (some "Namespace") (some (NodeList.ofList [c6Inner])) none none (some c6Ty)

def c6Root : Node := mkNode "" (some "Project") (some (NodeList.ofList [c6Ns]))

def c6RootOut : Node :=
  .mk "" (some "Project") (some (NodeList.ofList [c6Ns])) none none none (some "") (some stableFI) none

def w6Ty : TypeDesc := .reference "Event" (some [.reference "Cb" none])

def w6 : Node := mkNode "onEv" (some "Property") none none none (some w6Ty)

def w6Out : Node :=
  .mk "onEv" (some "Property") none none none (some w6Ty) (some "onEv") (some stableFI)
    (some ⟨some [Param.mk (-1) "callback" 32768 (some (.reference "Cb" none))]⟩)

def w7 : Node := mkNode "onNever" (some "Property") none none none
  (some (.reference "Event" (some [.intrinsic "never"])))

def c8Params : List Param := [Param.mk 1 "x" 32768 (some (.intrinsic "string"))]

def c8Ty : TypeDesc :=
  .reference "CustomChromeEvent" (some [.reflection (some (.mk (some [.mk (some c8Params)])))])

def c8Inner : Node := mkNode "inner8" (some "Namespace")

def c8Ns : Node := mkNode "evns8" (some "Namespace") (some (NodeList.ofList [c8Inner])) none none (some c8Ty)

def c8Root : Node := mkNode "" (some "Project") (some (NodeList.ofList [c8Ns]))

def c8RootOut : Node :=
  .mk "" (some "Project") (some (NodeList.ofList [c8Ns])) none none none (some "") (some stableFI) none

def w8 : Node := mkNode "onCst" (some "Property") none none none (some c8Ty)

def w8Out : Node :=
  .mk "onCst" (some "Property") none none none (some c8Ty) (some "onCst") (some stableFI)
    (some ⟨some c8Params⟩)

def c9Hidden : Node := mkNode "_secret" (some "Interface")

def c10Hidden : Node := mkNode "_h" (some "Interface")

def c10Ns : Node := mkNode "ns10" (some "Namespace") (some (NodeList.ofList [c10Hidden]))

def c10Out : Node :=
  .mk "ns10" (some "Namespace") (some (NodeList.ofList [])) none none none (some "ns10") (some stableFI) none

/-! ### Basic lemmas about node updates and `visit` -/

@[simp]
theorem Node.annotate_name (n : Node) (fq : String) (fi : FeatureInfo) :
    (n.annotate fq fi).name = n.name := by
  cases n; rfl

@[simp]
theorem Node.annotate_kindString (n : Node) (fq : String) (fi : FeatureInfo) :
    (n.annotate fq fi).kindString = n.kindString := by
  cases n; rfl

@[simp]
theorem Node.annotate_children (n : Node) (fq : String) (fi : FeatureInfo) :
    (n.annotate fq fi).children = n.children := by
  cases n; rfl

@[simp]
theorem Node.annotate_nameC (n : Node) (fq : String) (fi : FeatureInfo) :
    (n.annotate fq fi).nameC = some fq := by
  cases n; rfl

@[simp]
theorem Node.annotate_featureC (n : Node) (fq : String) (fi : FeatureInfo) :
    (n.annotate fq fi).featureC = some fi := by
  cases n; rfl

@[simp]
theorem Node.annotate_eventC (n : Node) (fq : String) (fi : FeatureInfo) :
    (n.annotate fq fi).eventC = n.eventC := by
  cases n; rfl

@[simp]
theorem Node.setEvent_name (n : Node) (ev : EventInfo) : (n.setEvent ev).name = n.name := by
  cases n; rfl

@[simp]
theorem Node.setEvent_kindString (n : Node) (ev : EventInfo) :
    (n.setEvent ev).kindString = n.kindString := by
  cases n; rfl

@[simp]
theorem Node.setEvent_children (n : Node) (ev : EventInfo) :
    (n.setEvent ev).children = n.children := by
  cases n; rfl

@[simp]
theorem Node.setEvent_nameC (n : Node) (ev : EventInfo) : (n.setEvent ev).nameC = n.nameC := by
  cases n; rfl

@[simp]
theorem Node.setEvent_featureC (n : Node) (ev : EventInfo) :
    (n.setEvent ev).featureC = n.featureC := by
  cases n; rfl

@[simp]
theorem Node.setEvent_eventC (n : Node) (ev : EventInfo) : (n.setEvent ev).eventC = some ev := by
  cases n; rfl

@[simp]
theorem Node.setChildren_name (n : Node) (cs : Option NodeList) :
    (n.setChildren cs).name = n.name := by
  cases n; rfl

@[simp]
theorem Node.setChildren_kindString (n : Node) (cs : Option NodeList) :
    (n.setChildren cs).kindString = n.kindString := by
  cases n; rfl

@[simp]
theorem Node.setChildren_children (n : Node) (cs : Option NodeList) :
    (n.setChildren cs).children = cs := by
  cases n; rfl

@[simp]
theorem Node.setChildren_nameC (n : Node) (cs : Option NodeList) :
    (n.setChildren cs).nameC = n.nameC := by
  cases n; rfl

@[simp]
theorem Node.setChildren_featureC (n : Node) (cs : Option NodeList) :
    (n.setChildren cs).featureC = n.featureC := by
  cases n; rfl

@[simp]
theorem Node.setChildren_eventC (n : Node) (cs : Option NodeList) :
    (n.setChildren cs).eventC = n.eventC := by
  cases n; rfl

theorem earlyExit_iff (node : Node) :
    earlyExit node = true ↔
      node.kindString = some "Namespace" ∧ hasNonNamespaceChild node = false := by
  simp [earlyExit]

theorem visit_early {node : Node} (ps : List Node) (h : earlyExit node = true) :
    Transform.visit node ps = .ok (node, none) := by
  rcases (earlyExit_iff node).mp h with ⟨h1, h2⟩
  unfold Transform.visit
  rw [if_pos ⟨h1, h2⟩]

theorem visit_ok_pres {node : Node} {ps : List Node} {vn : Node} {rk : Option String}
    (h : Transform.visit node ps = .ok (vn, rk)) :
    vn.name = node.name ∧ vn.kindString = node.kindString ∧ vn.children = node.children := by
  unfold Transform.visit at h
  split at h
  · cases h
    exact ⟨rfl, rfl, rfl⟩
  · split at h <;> split at h <;> cases h <;> simp

theorem visit_ok_regKey {node : Node} {ps : List Node} {vn : Node} {rk : Option String}
    (h : Transform.visit node ps = .ok (vn, rk)) :
    rk = if qualifies node then some (Transform.fqdnOf node ps) else none := by
  unfold Transform.visit at h
  split at h
  · cases h
    rename_i hcond
    simp [qualifies, hcond.1, hcond.2]
  · rename_i hcond
    rw [not_and_or] at hcond
    split at h <;> split at h <;> cases h <;> simp_all [qualifies]

theorem visit_ok_ann {node : Node} {ps : List Node} {vn : Node} {rk : Option String}
    (h : Transform.visit node ps = .ok (vn, rk)) (hne : earlyExit node = false) :
    vn.nameC = some (Transform.fqdnOf node ps) ∧
      vn.featureC = some (Transform.processTags (Transform.commentTags node)) := by
  unfold Transform.visit at h
  split at h
  · rename_i hcond
    rw [show (Transform.hasNonNamespaceChild node = false) = (¬ Transform.hasNonNamespaceChild node = true) by simp] at hcond
    simp [earlyExit, hcond.1, hcond.2] at hne
  · split at h <;> split at h <;> cases h <;> simp

theorem visit_ok_event_none {node : Node} {ps : List Node} {vn : Node} {rk : Option String}
    (h : Transform.visit node ps = .ok (vn, rk)) (hne : earlyExit node = false)
    (hev : Transform.eventInfoOf node.type = .ok none) : vn.eventC = node.eventC := by
  unfold Transform.visit at h
  split at h
  · rename_i hcond
    rw [show (Transform.hasNonNamespaceChild node = false) = (¬ Transform.hasNonNamespaceChild node = true) by simp] at hcond
    simp [earlyExit, hcond.1, hcond.2] at hne
  · split at h <;> split at h <;> cases h <;> simp_all

theorem visit_ok_event_some {node : Node} {ps : List Node} {vn : Node} {rk : Option String}
    {ev : EventInfo} (h : Transform.visit node ps = .ok (vn, rk))
    (hne : earlyExit node = false)
    (hev : Transform.eventInfoOf node.type = .ok (some ev)) : vn.eventC = some ev := by
  unfold Transform.visit at h
  split at h
  · rename_i hcond
    rw [show (Transform.hasNonNamespaceChild node = false) = (¬ Transform.hasNonNamespaceChild node = true) by simp] at hcond
    simp [earlyExit, hcond.1, hcond.2] at hne
  · split at h <;> split at h <;> cases h <;> simp_all

theorem visit_isOk (node : Node) (ps : List Node) :
    (Transform.visit node ps).isOk = (earlyExit node || (Transform.eventInfoOf node.type).isOk) := by
  unfold Transform.visit
  split
  · rename_i hcond
    have : earlyExit node = true := by
      simp [earlyExit, hcond.1, hcond.2]
    simp [this, Except.isOk, Except.toBool]
  · rename_i hcond
    have hne : earlyExit node = false := by
      rw [not_and_or] at hcond
      rcases hcond with hc | hc <;> simp [earlyExit] <;> intro hk
      · exact absurd hk hc
      · simpa using hc
    rw [hne, Bool.false_or]
    cases hev : Transform.eventInfoOf node.type with
    | error e => simp [hev, Except.isOk, Except.toBool]
    | ok oev => cases oev <;> simp [hev, Except.isOk, Except.toBool]

theorem eventInfoOf_isOk (t : Option TypeDesc) :
    (Transform.eventInfoOf t).isOk = !typeFatal t := by
  match t with
  | none => rfl
  | some (.intrinsic _) => rfl
  | some (.reflection _) => rfl
  | some .otherType => rfl
  | some (.reference nm targs) =>
    simp only [Transform.eventInfoOf, typeFatal]
    by_cases hm : nm ∈ chromeEventRefTypes
    · rw [if_pos hm]
      cases hfa : Transform.firstArgOf targs with
      | none => simp [hm, hfa, Except.isOk, Except.toBool]
      | some a =>
        by_cases hc : nm = "CustomChromeEvent"
        · simp [hm, hfa, hc, Except.isOk, Except.toBool]
        · cases a with
          | intrinsic iname =>
            by_cases hn : iname = "never" <;>
              simp [hm, hfa, hc, hn, Except.isOk, Except.toBool]
          | reference n2 t2 => simp [hm, hfa, hc, Except.isOk, Except.toBool]
          | reflection d => simp [hm, hfa, hc, Except.isOk, Except.toBool]
          | otherType => simp [hm, hfa, hc, Except.isOk, Except.toBool]
    · simp [hm, Except.isOk, Except.toBool]

theorem pnk_map_filter {ps ps' : List Node} (h : ps.map pnk = ps'.map pnk) :
    (ps.filter (fun p => decide (p.kindString ≠ some "Project"))).map Node.name
      = (ps'.filter (fun p => decide (p.kindString ≠ some "Project"))).map Node.name := by
  induction ps generalizing ps' with
  | nil =>
    cases ps' with
    | nil => rfl
    | cons q rest' => simp at h
  | cons p rest ih =>
    cases ps' with
    | nil => simp at h
    | cons q rest' =>
      simp only [List.map_cons, List.cons.injEq] at h
      obtain ⟨hpq, hrest⟩ := h
      have hname : p.name = q.name := congrArg Prod.fst hpq
      have hkind : p.kindString = q.kindString := congrArg Prod.snd hpq
      simp only [List.filter_cons, hkind]
      split
      · simp only [List.map_cons, hname, List.cons.injEq, true_and]
        simpa using ih hrest
      · exact ih hrest

theorem fqdnOf_congr {node : Node} {ps ps' : List Node} (h : ps.map pnk = ps'.map pnk) :
    Transform.fqdnOf node ps = Transform.fqdnOf node ps' := by
  unfold Transform.fqdnOf
  rw [pnk_map_filter h]

/-! ### Unfolding equations for `walk` and `walkList` -/

theorem walk_err {node : Node} {ps : List Node} {e : String}
    (hv : Transform.visit node ps = .error e) : Transform.walk node ps = .error e := by
  cases node with
  | mk nm k ocs f c t a b ev =>
    cases ocs with
    | none => rw [Transform.walk.eq_1, hv]
    | some cs => rw [Transform.walk.eq_2, hv]

theorem walk_none_ok {nm : String} {k : Option String} {f : Option Flags} {c : Option Comment}
    {t : Option TypeDesc} {a : Option String} {b : Option FeatureInfo} {ev : Option EventInfo}
    {ps : List Node} {vn : Node} {rk : Option String}
    (hv : Transform.visit (Node.mk nm k none f c t a b ev) ps = .ok (vn, rk)) :
    Transform.walk (Node.mk nm k none f c t a b ev) ps = .ok (vn, Transform.regEntry rk vn) := by
  rw [Transform.walk.eq_1, hv]

theorem walk_some_ok {nm : String} {k : Option String} {cs : NodeList} {f : Option Flags}
    {c : Option Comment} {t : Option TypeDesc} {a : Option String} {b : Option FeatureInfo}
    {ev : Option EventInfo} {ps : List Node} {vn : Node} {rk : Option String}
    (hv : Transform.visit (Node.mk nm k (some cs) f c t a b ev) ps = .ok (vn, rk)) :
    Transform.walk (Node.mk nm k (some cs) f c t a b ev) ps =
      match Transform.walkList cs (ps ++ [vn]) with
      | .error e => .error e
      | .ok (cs', sub) =>
        .ok (vn.setChildren (some cs'),
          Transform.regEntry rk (vn.setChildren (some cs')) ++ sub) := by
  rw [Transform.walk.eq_2, hv]

theorem walkList_nil (ps : List Node) : Transform.walkList .nil ps = .ok (.nil, []) := rfl

theorem walkList_cons_keep {cnode : Node} {rest : NodeList} {ps : List Node}
    (hf : Transform.filter cnode = true) :
    Transform.walkList (.cons cnode rest) ps =
      match Transform.walk cnode ps with
      | .error e => .error e
      | .ok (c', sub) =>
        match Transform.walkList rest ps with
        | .error e => .error e
        | .ok (cs', sub') => .ok (.cons c' cs', sub ++ sub') := by
  rw [Transform.walkList.eq_2, if_pos hf]

theorem walkList_cons_drop {cnode : Node} {rest : NodeList} {ps : List Node}
    (hf : Transform.filter cnode = false) :
    Transform.walkList (.cons cnode rest) ps = Transform.walkList rest ps := by
  rw [Transform.walkList.eq_2, if_neg (by simp [hf])]

theorem walk_ok_pres {node : Node} {ps : List Node} {n' : Node} {reg : List (String × Node)}
    (h : Transform.walk node ps = .ok (n', reg)) :
    n'.name = node.name ∧ n'.kindString = node.kindString := by
  cases node with
  | mk nm k ocs f c t a b ev =>
    cases ocs with
    | none =>
      rw [Transform.walk.eq_1] at h
      split at h
      · cases h
      · rename_i vn rk hv
        cases h
        exact ⟨(visit_ok_pres hv).1, (visit_ok_pres hv).2.1⟩
    | some cs =>
      rw [Transform.walk.eq_2] at h
      split at h
      · cases h
      · rename_i vn rk hv
        split at h
        · cases h
        · cases h
          refine ⟨?_, ?_⟩
          · rw [Node.setChildren_name]
            exact (visit_ok_pres hv).1
          · rw [Node.setChildren_kindString]
            exact (visit_ok_pres hv).2.1

theorem walkList_mem_kind {l : NodeList} {ps : List Node} {ns : NodeList}
    {reg : List (String × Node)} (h : Transform.walkList l ps = .ok (ns, reg)) :
    ∀ x ∈ ns.toList, ∃ cnode ∈ l.toList, Transform.filter cnode = true ∧
      x.name = cnode.name ∧ x.kindString = cnode.kindString := by
  induction l generalizing ns reg with
  | hnil =>
    rw [walkList_nil] at h
    cases h
    simp [NodeList.toList]
  | hcons cnode rest ih =>
    by_cases hf : Transform.filter cnode = true
    · rw [walkList_cons_keep hf] at h
      split at h
      · cases h
      · rename_i c' sub hw
        split at h
        · cases h
        · rename_i cs' sub' hrest
          cases h
          intro x hx
          rcases List.mem_cons.mp hx with hx | hx
          · subst hx
            exact ⟨cnode, by simp [NodeList.toList], hf,
              (walk_ok_pres hw).1, (walk_ok_pres hw).2⟩
          · rcases ih hrest x hx with ⟨c2, hc2, hfc2, hn2, hk2⟩
            exact ⟨c2, by simp [NodeList.toList, hc2], hfc2, hn2, hk2⟩
    · rw [walkList_cons_drop (by simpa using hf)] at h
      intro x hx
      rcases ih h x hx with ⟨c2, hc2, hfc2, hn2, hk2⟩
      exact ⟨c2, by simp [NodeList.toList, hc2], hfc2, hn2, hk2⟩

theorem NodeList.any_eq_false {l : NodeList} {p : Node → Bool} :
    l.any p = false ↔ ∀ x ∈ l.toList, p x = false := by
  induction l with
  | hnil => simp [NodeList.any, NodeList.toList]
  | hcons c rest ih => simp [NodeList.any, NodeList.toList, ih]

theorem hasNonNamespaceChild_mk_none {nm : String} {k : Option String} {f : Option Flags}
    {c : Option Comment} {t : Option TypeDesc} {a : Option String} {b : Option FeatureInfo}
    {ev : Option EventInfo} :
    Transform.hasNonNamespaceChild (Node.mk nm k none f c t a b ev) = false := rfl

theorem hasNonNamespaceChild_mk_some {nm : String} {k : Option String} {cs : NodeList}
    {f : Option Flags} {c : Option Comment} {t : Option TypeDesc} {a : Option String}
    {b : Option FeatureInfo} {ev : Option EventInfo} :
    Transform.hasNonNamespaceChild (Node.mk nm k (some cs) f c t a b ev) =
      cs.any (fun x => decide (x.kindString ≠ some "Namespace")) := rfl

/-! ### The annotation invariant (walk output) -/

theorem goodOut_aux :
    (∀ (node : Node) (ps : List Node), ∀ n' reg,
        Transform.walk node ps = .ok (n', reg) → goodOut n' = true) ∧
    (∀ (l : NodeList) (ps : List Node), ∀ ns reg,
        Transform.walkList l ps = .ok (ns, reg) → goodOutList ns = true) := by
  refine Transform.walk.mutual_induct
    (fun node ps => ∀ n' reg, Transform.walk node ps = .ok (n', reg) → goodOut n' = true)
    (fun l ps => ∀ ns reg, Transform.walkList l ps = .ok (ns, reg) → goodOutList ns = true)
    ?_ ?_ ?_ ?_ ?_ ?_ ?_ ?_ ?_ ?_
  · -- children none, visit error
    intro ps nm k f c t a b ev err hv n' reg hw
    rw [walk_err hv] at hw
    simp at hw
  · -- children none, visit ok
    intro ps nm k f c t a b ev vn rk hv n' reg hw
    rw [walk_none_ok hv] at hw
    simp only [Except.ok.injEq, Prod.mk.injEq] at hw
    obtain ⟨hw1, hw2⟩ := hw
    subst hw1
    by_cases he : earlyExit (Node.mk nm k none f c t a b ev) = true
    · rw [visit_early ps he] at hv
      simp only [Except.ok.injEq, Prod.mk.injEq] at hv
      obtain ⟨hv1, hv2⟩ := hv
      subst hv1
      rcases (earlyExit_iff _).mp he with ⟨hk, hnn⟩
      simp only [Node.kindString] at hk
      rw [goodOut.eq_1]
      simp [annOrPure, Node.kindString, hk, hasNonNamespaceChild_mk_none]
    · have hann := visit_ok_ann hv (by simpa using he)
      have hch := (visit_ok_pres hv).2.2
      cases vn with
      | mk nm2 k2 ocs2 f2 c2 t2 a2 b2 ev2 =>
        simp only [Node.children] at hch
        subst hch
        rw [goodOut.eq_1]
        simp only [Node.nameC, Node.featureC] at hann
        simp [annOrPure, Node.nameC, Node.featureC, hann.1, hann.2]
  · -- children some, visit error
    intro ps nm k cs f c t a b ev err hv n' reg hw
    rw [walk_err hv] at hw
    simp at hw
  · -- children some, visit ok, walkList error
    intro ps nm k cs f c t a b ev vn rk hv err hwl ih n' reg hw
    rw [walk_some_ok hv, hwl] at hw
    simp at hw
  · -- children some, visit ok, walkList ok
    intro ps nm k cs f c t a b ev vn rk hv cs' sub hwl ih n' reg hw
    rw [walk_some_ok hv, hwl] at hw
    simp only [Except.ok.injEq, Prod.mk.injEq] at hw
    obtain ⟨hw1, hw2⟩ := hw
    subst hw1
    have hlist := ih cs' sub hwl
    by_cases he : earlyExit (Node.mk nm k (some cs) f c t a b ev) = true
    · rw [visit_early ps he] at hv
      simp only [Except.ok.injEq, Prod.mk.injEq] at hv
      obtain ⟨hv1, hv2⟩ := hv
      subst hv1
      rcases (earlyExit_iff _).mp he with ⟨hk, hnn⟩
      simp only [Node.kindString] at hk
      have hkids : ∀ x ∈ cs'.toList, x.kindString = some "Namespace" := by
        intro x hx
        rcases walkList_mem_kind hwl x hx with ⟨c0, hc0, hfc0, hn0, hk0⟩
        rw [hasNonNamespaceChild_mk_some] at hnn
        have := (NodeList.any_eq_false.mp hnn) c0 hc0
        rw [hk0]
        simpa using this
      rw [show (Node.mk nm k (some cs) f c t a b ev).setChildren (some cs')
            = Node.mk nm k (some cs') f c t a b ev from rfl]
      rw [goodOut.eq_2, Bool.and_eq_true]
      refine ⟨?_, hlist⟩
      simp only [annOrPure, Node.kindString, Node.nameC, Node.featureC]
      rw [Bool.or_eq_true]
      refine Or.inr ?_
      rw [Bool.and_eq_true]
      refine ⟨by simp [hk], ?_⟩
      rw [hasNonNamespaceChild_mk_some]
      simp only [Bool.not_eq_true']
      exact NodeList.any_eq_false.mpr (fun x hx => by simp [hkids x hx])
    · have hann := visit_ok_ann hv (by simpa using he)
      cases vn with
      | mk nm2 k2 ocs2 f2 c2 t2 a2 b2 ev2 =>
        rw [show (Node.mk nm2 k2 ocs2 f2 c2 t2 a2 b2 ev2).setChildren (some cs')
              = Node.mk nm2 k2 (some cs') f2 c2 t2 a2 b2 ev2 from rfl]
        rw [goodOut.eq_2, Bool.and_eq_true]
        simp only [Node.nameC, Node.featureC] at hann
        refine ⟨?_, hlist⟩
        simp [annOrPure, Node.nameC, Node.featureC, hann.1, hann.2]
  · -- walkList nil
    intro ps ns reg hw
    rw [walkList_nil] at hw
    simp only [Except.ok.injEq, Prod.mk.injEq] at hw
    obtain ⟨hw1, hw2⟩ := hw
    subst hw1
    rfl
  · -- cons, kept, walk error
    intro ps cnode rest hf err hwerr ih ns reg hw
    rw [walkList_cons_keep hf, hwerr] at hw
    simp at hw
  · -- cons, kept, walk ok, rest error
    intro ps cnode rest hf c' sub hwc err hwrest ih1 ih2 ns reg hw
    rw [walkList_cons_keep hf, hwc, hwrest] at hw
    simp at hw
  · -- cons, kept, both ok
    intro ps cnode rest hf c' sub hwc cs' sub' hwrest ih1 ih2 ns reg hw
    rw [walkList_cons_keep hf, hwc, hwrest] at hw
    simp only [Except.ok.injEq, Prod.mk.injEq] at hw
    obtain ⟨hw1, hw2⟩ := hw
    subst hw1
    rw [goodOutList.eq_2, Bool.and_eq_true]
    exact ⟨ih1 c' sub hwc, ih2 cs' sub' hwrest⟩
  · -- cons, dropped
    intro ps cnode rest hnf ih ns reg hw
    rw [walkList_cons_drop (by simpa using hnf)] at hw
    exact ih ns reg hw

/-! ### The error characterization -/

@[simp]
theorem eIsOk_ok {α : Type} (x : α) : (Except.ok x : Except String α).isOk = true := rfl

@[simp]
theorem eIsOk_error {α : Type} (e : String) : (Except.error e : Except String α).isOk = false := rfl

theorem fatal_aux :
    (∀ (node : Node) (ps : List Node), (Transform.walk node ps).isOk = !hasFatal node) ∧
    (∀ (l : NodeList) (ps : List Node), (Transform.walkList l ps).isOk = !hasFatalList l) := by
  refine Transform.walk.mutual_induct
    (fun node ps => (Transform.walk node ps).isOk = !hasFatal node)
    (fun l ps => (Transform.walkList l ps).isOk = !hasFatalList l)
    ?_ ?_ ?_ ?_ ?_ ?_ ?_ ?_ ?_ ?_
  · -- children none, visit error
    intro ps nm k f c t a b ev err hv
    have hv' : (Transform.visit (Node.mk nm k none f c t a b ev) ps).isOk = false := by
      rw [hv]
      rfl
    rw [visit_isOk, Bool.or_eq_false_iff] at hv'
    rw [eventInfoOf_isOk] at hv'
    rw [walk_err hv, hasFatal.eq_1]
    simp only [Node.type] at hv'
    simp [hv'.1, show typeFatal t = true from by simpa using hv'.2]
  · -- children none, visit ok
    intro ps nm k f c t a b ev vn rk hv
    have hv' : (Transform.visit (Node.mk nm k none f c t a b ev) ps).isOk = true := by
      rw [hv]
      rfl
    rw [visit_isOk, Bool.or_eq_true] at hv'
    rw [walk_none_ok hv, hasFatal.eq_1]
    rcases hv' with hv' | hv'
    · simp [hv']
    · rw [eventInfoOf_isOk] at hv'
      simp only [Node.type] at hv'
      simp [show typeFatal t = false from by simpa using hv']
  · -- children some, visit error
    intro ps nm k cs f c t a b ev err hv
    have hv' : (Transform.visit (Node.mk nm k (some cs) f c t a b ev) ps).isOk = false := by
      rw [hv]
      rfl
    rw [visit_isOk, Bool.or_eq_false_iff] at hv'
    rw [eventInfoOf_isOk] at hv'
    rw [walk_err hv, hasFatal.eq_2]
    simp only [Node.type] at hv'
    simp [hv'.1, show typeFatal t = true from by simpa using hv'.2]
  · -- children some, visit ok, walkList error
    intro ps nm k cs f c t a b ev vn rk hv err hwl ih
    rw [walk_some_ok hv, hwl, hasFatal.eq_2]
    rw [hwl] at ih
    simp only [eIsOk_error, Eq.comm, Bool.not_eq_false'] at ih
    simp [ih]
  · -- children some, visit ok, walkList ok
    intro ps nm k cs f c t a b ev vn rk hv cs' sub hwl ih
    have hv' : (Transform.visit (Node.mk nm k (some cs) f c t a b ev) ps).isOk = true := by
      rw [hv]
      rfl
    rw [visit_isOk, Bool.or_eq_true] at hv'
    rw [hwl] at ih
    simp only [eIsOk_ok, Eq.comm, Bool.not_eq_true'] at ih
    rw [walk_some_ok hv, hwl, hasFatal.eq_2]
    rcases hv' with hv' | hv'
    · simp [hv', ih]
    · rw [eventInfoOf_isOk] at hv'
      simp only [Node.type] at hv'
      simp [show typeFatal t = false from by simpa using hv', ih]
  · -- walkList nil
    intro ps
    rw [walkList_nil, hasFatalList.eq_1]
    rfl
  · -- cons, kept, walk error
    intro ps cnode rest hf err hwerr ih
    rw [hwerr] at ih
    simp only [eIsOk_error, Eq.comm, Bool.not_eq_false'] at ih
    rw [walkList_cons_keep hf, hwerr, hasFatalList.eq_2]
    simp [hf, ih]
  · -- cons, kept, walk ok, rest error
    intro ps cnode rest hf c' sub hwc err hwrest ih1 ih2
    rw [hwrest] at ih2
    simp only [eIsOk_error, Eq.comm, Bool.not_eq_false'] at ih2
    rw [walkList_cons_keep hf, hwc, hwrest, hasFatalList.eq_2]
    simp [ih2]
  · -- cons, kept, both ok
    intro ps cnode rest hf c' sub hwc cs' sub' hwrest ih1 ih2
    have h1 : hasFatal cnode = false := by
      rw [hwc] at ih1
      simpa using ih1.symm
    have h2 : hasFatalList rest = false := by
      rw [hwrest] at ih2
      simpa using ih2.symm
    rw [walkList_cons_keep hf, hwc, hwrest, hasFatalList.eq_2]
    simp [h1, h2]
  · -- cons, dropped
    intro ps cnode rest hnf ih
    rw [walkList_cons_drop (by simpa using hnf), hasFatalList.eq_2]
    simp only [Bool.not_eq_true] at hnf
    simp [hnf, ih]

/-! ### The registry keys -/

theorem keys_aux :
    (∀ (node : Node) (ps : List Node), ∀ n' reg, Transform.walk node ps = .ok (n', reg) →
        ∀ ps₂, ps.map pnk = ps₂.map pnk → reg.map Prod.fst = reachedKeys node ps₂) ∧
    (∀ (l : NodeList) (ps : List Node), ∀ ns reg, Transform.walkList l ps = .ok (ns, reg) →
        ∀ ps₂, ps.map pnk = ps₂.map pnk → reg.map Prod.fst = reachedKeysList l ps₂) := by
  refine Transform.walk.mutual_induct
    (fun node ps => ∀ n' reg, Transform.walk node ps = .ok (n', reg) →
        ∀ ps₂, ps.map pnk = ps₂.map pnk → reg.map Prod.fst = reachedKeys node ps₂)
    (fun l ps => ∀ ns reg, Transform.walkList l ps = .ok (ns, reg) →
        ∀ ps₂, ps.map pnk = ps₂.map pnk → reg.map Prod.fst = reachedKeysList l ps₂)
    ?_ ?_ ?_ ?_ ?_ ?_ ?_ ?_ ?_ ?_
  · -- children none, visit error
    intro ps nm k f c t a b ev err hv n' reg hw
    rw [walk_err hv] at hw
    simp at hw
  · -- children none, visit ok
    intro ps nm k f c t a b ev vn rk hv n' reg hw ps₂ hcong
    rw [walk_none_ok hv] at hw
    simp only [Except.ok.injEq, Prod.mk.injEq] at hw
    obtain ⟨hw1, hw2⟩ := hw
    subst hw2
    rw [visit_ok_regKey hv, reachedKeys.eq_1, fqdnOf_congr hcong]
    by_cases hq : qualifies (Node.mk nm k none f c t a b ev) = true
    · simp [hq, Transform.regEntry]
    · simp only [Bool.not_eq_true] at hq
      simp [hq, Transform.regEntry]
  · -- children some, visit error
    intro ps nm k cs f c t a b ev err hv n' reg hw
    rw [walk_err hv] at hw
    simp at hw
  · -- children some, visit ok, walkList error
    intro ps nm k cs f c t a b ev vn rk hv err hwl ih n' reg hw
    rw [walk_some_ok hv, hwl] at hw
    simp at hw
  · -- children some, visit ok, walkList ok
    intro ps nm k cs f c t a b ev vn rk hv cs' sub hwl ih n' reg hw ps₂ hcong
    rw [walk_some_ok hv, hwl] at hw
    simp only [Except.ok.injEq, Prod.mk.injEq] at hw
    obtain ⟨hw1, hw2⟩ := hw
    subst hw2
    have hpres := visit_ok_pres hv
    have hcong2 : (ps ++ [vn]).map pnk
        = (ps₂ ++ [Node.mk nm k (some cs) f c t a b ev]).map pnk := by
      rw [List.map_append, List.map_append, hcong]
      simp only [List.map_cons, List.map_nil]
      have : pnk vn = pnk (Node.mk nm k (some cs) f c t a b ev) := by
        simp [pnk, hpres.1, hpres.2.1]
      rw [this]
    have hsub := ih cs' sub hwl _ hcong2
    rw [List.map_append, hsub, visit_ok_regKey hv, reachedKeys.eq_2, fqdnOf_congr hcong]
    by_cases hq : qualifies (Node.mk nm k (some cs) f c t a b ev) = true
    · simp [hq, Transform.regEntry]
    · simp only [Bool.not_eq_true] at hq
      simp [hq, Transform.regEntry]
  · -- walkList nil
    intro ps ns reg hw ps₂ hcong
    rw [walkList_nil] at hw
    simp only [Except.ok.injEq, Prod.mk.injEq] at hw
    obtain ⟨hw1, hw2⟩ := hw
    subst hw2
    rw [reachedKeysList.eq_1]
    rfl
  · -- cons, kept, walk error
    intro ps cnode rest hf err hwerr ih ns reg hw
    rw [walkList_cons_keep hf, hwerr] at hw
    simp at hw
  · -- cons, kept, walk ok, rest error
    intro ps cnode rest hf c' sub hwc err hwrest ih1 ih2 ns reg hw
    rw [walkList_cons_keep hf, hwc, hwrest] at hw
    simp at hw
  · -- cons, kept, both ok
    intro ps cnode rest hf c' sub hwc cs' sub' hwrest ih1 ih2 ns reg hw ps₂ hcong
    rw [walkList_cons_keep hf, hwc, hwrest] at hw
    simp only [Except.ok.injEq, Prod.mk.injEq] at hw
    obtain ⟨hw1, hw2⟩ := hw
    subst hw2
    rw [List.map_append, ih1 c' sub hwc ps₂ hcong, ih2 cs' sub' hwrest ps₂ hcong,
      reachedKeysList.eq_2, if_pos hf]
  · -- cons, dropped
    intro ps cnode rest hnf ih ns reg hw ps₂ hcong
    simp only [Bool.not_eq_true] at hnf
    rw [walkList_cons_drop hnf] at hw
    rw [ih ns reg hw ps₂ hcong, reachedKeysList.eq_2]
    simp [hnf]

theorem setKey_keys_mem (m : List (String × Node)) (k : String) (v : Node) (k' : String) :
    k' ∈ (Transform.setKey m k v).map Prod.fst ↔ k' ∈ m.map Prod.fst ∨ k' = k := by
  unfold Transform.setKey
  split
  · rename_i hany
    have hkeys : (m.map (fun p => if p.1 = k then (k, v) else p)).map Prod.fst
        = m.map Prod.fst := by
      rw [List.map_map]
      refine List.map_congr_left ?_
      intro p hp
      by_cases hpk : p.1 = k
      · simp [hpk]
      · simp [hpk]
    rw [hkeys]
    constructor
    · exact Or.inl
    · rintro (h | h)
      · exact h
      · subst h
        rcases List.any_eq_true.mp hany with ⟨p, hp, hpk⟩
        simp only [decide_eq_true_eq] at hpk
        exact hpk ▸ List.mem_map.mpr ⟨p, hp, rfl⟩
  · rw [List.map_append]
    simp [List.mem_append, Eq.comm]
  
theorem foldl_setKey_keys (entries : List (String × Node)) (init : List (String × Node))
    (k' : String) :
    (k' ∈ (entries.foldl (fun m kv => Transform.setKey m kv.1 kv.2) init).map Prod.fst)
      ↔ k' ∈ init.map Prod.fst ∨ k' ∈ entries.map Prod.fst := by
  induction entries generalizing init with
  | nil => simp
  | cons kv rest ih =>
    rw [List.foldl_cons, ih, setKey_keys_mem]
    simp only [List.map_cons, List.mem_cons]
    tauto

/-! ### The tag parser -/

theorem tagStep_channel (s0 : FeatureInfo × Deprecated × Bool) (t : Tag) :
    (Transform.tagStep s0 t).1.channel =
      if t.tag = "chrome-channel" then jsTrim t.text else s0.1.channel := by
  obtain ⟨out, dep, att⟩ := s0
  simp only [Transform.tagStep]
  split <;> simp_all

theorem tagStep_permissions (s0 : FeatureInfo × Deprecated × Bool) (t : Tag) :
    (Transform.tagStep s0 t).1.permissions =
      if t.tag = "chrome-permission" then
        some (s0.1.permissions.getD [] ++ [jsTrim t.text])
      else s0.1.permissions := by
  obtain ⟨out, dep, att⟩ := s0
  simp only [Transform.tagStep]
  split <;> simp_all

theorem getLastD_cons : ∀ (l : List String) (x d : String),
    ((x :: l).getLast?).getD d = (l.getLast?).getD x
  | [], x, d => rfl
  | y :: ys, x, d => by
    rw [List.getLast?_cons_cons]
    exact (getLastD_cons ys y d).trans (getLastD_cons ys y x).symm

theorem tagStep_fold_channel (ts : List Tag) (s0 : FeatureInfo × Deprecated × Bool) :
    (ts.foldl Transform.tagStep s0).1.channel =
      ((channelTexts ts).getLast?).getD s0.1.channel := by
  induction ts generalizing s0 with
  | nil => simp [channelTexts]
  | cons t rest ih =>
    rw [List.foldl_cons, ih]
    by_cases ht : t.tag = "chrome-channel"
    · have hp : channelTexts (t :: rest) = jsTrim t.text :: channelTexts rest := by
        simp [channelTexts, ht]
      rw [hp, getLastD_cons, tagStep_channel, if_pos ht]
    · have hp : channelTexts (t :: rest) = channelTexts rest := by
        simp [channelTexts, ht]
      rw [hp, tagStep_channel, if_neg ht]

theorem tagStep_fold_permissions (ts : List Tag) (s0 : FeatureInfo × Deprecated × Bool) :
    (ts.foldl Transform.tagStep s0).1.permissions =
      (if permTexts ts = [] then s0.1.permissions
       else some (s0.1.permissions.getD [] ++ permTexts ts)) := by
  induction ts generalizing s0 with
  | nil => simp [permTexts]
  | cons t rest ih =>
    rw [List.foldl_cons, ih]
    by_cases ht : t.tag = "chrome-permission"
    · have hp : permTexts (t :: rest) = jsTrim t.text :: permTexts rest := by
        simp [permTexts, ht]
      rw [hp, tagStep_permissions, if_pos ht]
      by_cases hrest : permTexts rest = []
      · simp [hrest]
      · simp [hrest]
    · have hp : permTexts (t :: rest) = permTexts rest := by
        simp [permTexts, ht]
      rw [hp, tagStep_permissions, if_neg ht]

theorem processTags_channel (tags : List Tag) :
    (Transform.processTags tags).channel = ((channelTexts tags).getLast?).getD "stable" := by
  unfold Transform.processTags
  split
  rename_i out dep att heq
  have hch := tagStep_fold_channel tags
    ({ channel := "stable" }, { value := "", since := none }, false)
  rw [heq] at hch
  cases att <;> simp_all

theorem processTags_permissions (tags : List Tag) :
    (Transform.processTags tags).permissions =
      (if permTexts tags = [] then none else some (permTexts tags)) := by
  unfold Transform.processTags
  split
  rename_i out dep att heq
  have hch := tagStep_fold_permissions tags
    ({ channel := "stable" }, { value := "", since := none }, false)
  rw [heq] at hch
  by_cases hemp : permTexts tags = []
  · rw [if_pos hemp] at hch
    cases att <;> simp_all
  · rw [if_neg hemp] at hch
    cases att <;> simp_all

/-! ### Claim theorems -/

/-- C1, counterexample: the claim says a namespace-kind node is in the
returned mapping if and only if it has a non-namespace child.  The tree
`c1Root` contains the namespace `_api` with an interface child, yet the
mapping is empty: underscore-prefixed children are pruned before they
are visited, so `_api` is never registered. -/
theorem claim1_counterexample :
    Transform.run c1Root = Except.ok [] ∧
      c1Root.children = some (NodeList.ofList [c1Hidden]) ∧
      c1Hidden.kindString = some "Namespace" ∧
      Transform.hasNonNamespaceChild c1Hidden = true :=
  ⟨rfl, rfl, rfl, by decide⟩

/-- C1 (amended): restricted to nodes actually reached by the traversal
(the root, or descendants admitted by the child filter at every step), a
namespace's fully-qualified name is a key of the returned mapping iff it
has at least one non-namespace child; the keys are exactly the
fully-qualified names of those reached qualifying namespaces
(`reachedKeys`). -/
theorem claim1_keys (project : Node) (m : List (String × Node))
    (h : Transform.run project = .ok m) (k : String) :
    k ∈ m.map Prod.fst ↔ k ∈ reachedKeys project [] := by
  unfold Transform.run at h
  split at h
  · cases h
  · rename_i n' entries hwalk
    simp only [Except.ok.injEq] at h
    subst h
    rw [foldl_setKey_keys]
    rw [keys_aux.1 project [] n' entries hwalk [] rfl]
    simp

theorem claim1_keys_witness :
    "a" ∈ ([("a", wNsOut)] : List (String × Node)).map Prod.fst ↔ "a" ∈ reachedKeys wRoot [] :=
  claim1_keys wRoot [("a", wNsOut)] rfl "a"

/-- C2, counterexample: the claim says every node of the retained tree
carries `_name` and `_feature`.  After transforming `c2Root`, the
retained pure-namespace container `outer` carries neither: `visit`
returns before annotating a namespace without non-namespace children. -/
theorem claim2_counterexample :
    Transform.walk c2Root [] = Except.ok (c2RootOut, c2Entries) ∧
      c2RootOut.children = some (NodeList.ofList [c2OuterOut]) ∧
      c2OuterOut.kindString = some "Namespace" ∧
      c2OuterOut.nameC = none ∧ c2OuterOut.featureC = none :=
  ⟨rfl, rfl, rfl, rfl, rfl⟩

/-- C2 (amended): every node of the retained, pruned tree either has
both `_name` and `_feature` attached, or is a pure-namespace container
(a namespace node all of whose retained children are namespaces), which
`visit` leaves unannotated. -/
theorem claim2_annotation (node : Node) (ps : List Node) (n' : Node)
    (reg : List (String × Node)) (h : Transform.walk node ps = .ok (n', reg)) :
    goodOut n' = true :=
  goodOut_aux.1 node ps n' reg h

theorem claim2_annotation_witness : goodOut wRootOut = true :=
  claim2_annotation wRoot [] wRootOut wEntries rfl

/-- C3, counterexample: the claim says a recognized event reference
whose first type argument is an intrinsic type not named `never` raises
an error.  For `CustomChromeEvent` the code takes the dedicated branch
first and never checks the intrinsic name: transforming `c3Root`, whose
event node references `CustomChromeEvent` with the intrinsic argument
`boolean`, succeeds. -/
theorem claim3_counterexample :
    Transform.run c3Root = Except.ok c3Map ∧
      c3Ev.type = some (TypeDesc.reference "CustomChromeEvent"
        (some [TypeDesc.intrinsic "boolean"])) ∧
      c3Ns.children = some (NodeList.ofList [c3Ev]) ∧
      c3Root.children = some (NodeList.ofList [c3Ns]) ∧
      "boolean" ≠ "never" :=
  ⟨rfl, rfl, rfl, rfl, by decide⟩

/-- C3 (amended): the transformation errors iff some node reached by the
traversal and not early-returned as a pure-namespace container has a
recognized event reference with no type argument, or a reference named
`events.Event` or `Event` (not `CustomChromeEvent`) whose first type
argument is an intrinsic type not named `never` (`hasFatal`); all other
anomalies never raise, and an error yields no mapping (the `Except`
result carries either a mapping or an error, never both). -/
theorem claim3_error_iff (project : Node) :
    (∃ e, Transform.run project = .error e) ↔ hasFatal project = true := by
  have hiso := fatal_aux.1 project []
  unfold Transform.run
  cases hwalk : Transform.walk project [] with
  | error e =>
    rw [hwalk] at hiso
    simp only [eIsOk_error] at hiso
    constructor
    · intro _
      simpa using hiso.symm
    · intro _
      exact ⟨e, rfl⟩
  | ok pr =>
    obtain ⟨n', entries⟩ := pr
    rw [hwalk] at hiso
    simp only [eIsOk_ok] at hiso
    constructor
    · rintro ⟨e, he⟩
      simp at he
    · intro hf
      rw [hf] at hiso
      simp at hiso

/-- C4: for every node, the computed `_feature.channel` is the trimmed
text of the last `chrome-channel` tag of its comment, and `"stable"`
when there is none. -/
theorem claim4_channel (node : Node) :
    (Transform.processTags (Transform.commentTags node)).channel =
      ((channelTexts (Transform.commentTags node)).getLast?).getD "stable" :=
  processTags_channel _

/-- C5: for every node, the computed `_feature.permissions` is exactly
the trimmed texts of the `chrome-permission` tags in encounter order
(repeats kept), and the field is absent when there are none. -/
theorem claim5_permissions (node : Node) :
    (Transform.processTags (Transform.commentTags node)).permissions =
      (if permTexts (Transform.commentTags node) = [] then none
       else some (permTexts (Transform.commentTags node))) :=
  processTags_permissions _

/-- C6, counterexample: the claim says every node whose type is an
`Event` reference with a plain first type argument gets the synthetic
`callback` parameter in `_event.addListenerParameters`.  The namespace
`evns` of `c6Root` has such a type but only namespace children, so
`visit` returns before the event extraction: after transforming, it
carries no `_event` at all. -/
theorem claim6_counterexample :
    Transform.walk c6Root [] = Except.ok (c6RootOut, []) ∧
      c6RootOut.children = some (NodeList.ofList [c6Ns]) ∧
      c6Ns.type = some (TypeDesc.reference "Event"
        (some [TypeDesc.reference "T" none])) ∧
      eventParams c6Ns = none :=
  ⟨rfl, rfl, rfl, rfl⟩

/-- C6 (amended): for every node whose type is a reference named
`events.Event` or `Event` whose first type argument is not an intrinsic
type, and that is not a pure-namespace container (so `visit` does not
return early), the visit succeeds and attaches
`_event.addListenerParameters = [callback]` with the synthetic
`callback` parameter typed by that first argument. -/
theorem claim6_callback (node : Node) (ps : List Node) (nm : String) (arg : TypeDesc)
    (rest : List TypeDesc)
    (hty : node.type = some (.reference nm (some (arg :: rest))))
    (hnm : nm = "events.Event" ∨ nm = "Event")
    (hint : ∀ iname, arg ≠ .intrinsic iname)
    (hne : earlyExit node = false) :
    ∃ vn rk, Transform.visit node ps = .ok (vn, rk) ∧
      vn.eventC = some ⟨some [Param.mk (-1) "callback" 32768 (some arg)]⟩ := by
  have hmem : nm ∈ chromeEventRefTypes := by
    rcases hnm with h | h <;> simp [chromeEventRefTypes, h]
  have hncc : ¬ nm = "CustomChromeEvent" := by
    rcases hnm with h | h <;> simp [h]
  have hev : Transform.eventInfoOf node.type =
      .ok (some ⟨some [Param.mk (-1) "callback" 32768 (some arg)]⟩) := by
    rw [hty]
    cases arg with
    | intrinsic iname => exact absurd rfl (hint iname)
    | reference n2 t2 =>
      simp [Transform.eventInfoOf, Transform.firstArgOf, hmem, hncc]
    | reflection d =>
      simp [Transform.eventInfoOf, Transform.firstArgOf, hmem, hncc]
    | otherType =>
      simp [Transform.eventInfoOf, Transform.firstArgOf, hmem, hncc]
  cases hv : Transform.visit node ps with
  | error e =>
    have hok := visit_isOk node ps
    rw [hv, hne, hev] at hok
    simp at hok
  | ok pr =>
    obtain ⟨vn, rk⟩ := pr
    exact ⟨vn, rk, rfl, visit_ok_event_some hv hne hev⟩

theorem claim6_callback_witness :
    ∃ vn rk, Transform.visit w6 [] = .ok (vn, rk) ∧
      vn.eventC = some ⟨some [Param.mk (-1) "callback" 32768
        (some (TypeDesc.reference "Cb" none))]⟩ :=
  claim6_callback w6 [] "Event" (TypeDesc.reference "Cb" none) [] rfl (Or.inr rfl)
    (fun iname h => TypeDesc.noConfusion h) (by decide)

/-- C7: for every node whose type is a reference named `events.Event` or
`Event` whose first type argument is the intrinsic type `never`, the
visit succeeds and no `_event.addListenerParameters` is set on the node
(given the parser-produced node carried no `_event` of its own). -/
theorem claim7_never (node : Node) (ps : List Node) (nm : String) (rest : List TypeDesc)
    (hty : node.type = some (.reference nm (some (.intrinsic "never" :: rest))))
    (hnm : nm = "events.Event" ∨ nm = "Event")
    (hpre : node.eventC = none) :
    ∃ vn rk, Transform.visit node ps = .ok (vn, rk) ∧ eventParams vn = none := by
  have hmem : nm ∈ chromeEventRefTypes := by
    rcases hnm with h | h <;> simp [chromeEventRefTypes, h]
  have hncc : ¬ nm = "CustomChromeEvent" := by
    rcases hnm with h | h <;> simp [h]
  have hev : Transform.eventInfoOf node.type = .ok (some ⟨none⟩) := by
    rw [hty]
    simp [Transform.eventInfoOf, Transform.firstArgOf, hmem, hncc]
  by_cases hne : earlyExit node = true
  · refine ⟨node, none, visit_early ps hne, ?_⟩
    simp [eventParams, hpre]
  · cases hv : Transform.visit node ps with
    | error e =>
      have hok := visit_isOk node ps
      rw [hv, hev] at hok
      simp only [Bool.not_eq_true] at hne
      rw [hne] at hok
      simp at hok
    | ok pr =>
      obtain ⟨vn, rk⟩ := pr
      have := visit_ok_event_some hv (by simpa using hne) hev
      exact ⟨vn, rk, rfl, by simp [eventParams, this]⟩

theorem claim7_never_witness :
    ∃ vn rk, Transform.visit w7 [] = .ok (vn, rk) ∧ eventParams vn = none :=
  claim7_never w7 [] "Event" [] rfl (Or.inr rfl) rfl

/-- C8, counterexample: the claim says every node whose type is a
`CustomChromeEvent` reference carrying a call signature gets that
signature's parameter list as `_event.addListenerParameters`.  The
namespace `evns8` of `c8Root` has such a type but only namespace
children, so `visit` returns before the event extraction: after
transforming, it carries no `_event` at all. -/
theorem claim8_counterexample :
    Transform.walk c8Root [] = Except.ok (c8RootOut, []) ∧
      c8RootOut.children = some (NodeList.ofList [c8Ns]) ∧
      c8Ns.type = some c8Ty ∧
      c8Ty = TypeDesc.reference "CustomChromeEvent"
        (some [TypeDesc.reflection (some (.mk (some [.mk (some c8Params)])))]) ∧
      eventParams c8Ns = none :=
  ⟨rfl, rfl, rfl, rfl, rfl⟩

/-- C8 (amended): for every node whose type is a reference named
`CustomChromeEvent` whose first type argument is a reflection type whose
declaration carries at least one signature, and that is not a
pure-namespace container (so `visit` does not return early), the visit
succeeds and attaches `_event.addListenerParameters` equal to the first
signature's parameter list. -/
theorem claim8_custom (node : Node) (ps : List Node) (psig : Option (List Param))
    (sigs : List Signature) (trest : List TypeDesc)
    (hty : node.type = some (.reference "CustomChromeEvent"
      (some (.reflection (some (.mk (some (.mk psig :: sigs)))) :: trest))))
    (hne : earlyExit node = false) :
    ∃ vn rk, Transform.visit node ps = .ok (vn, rk) ∧ vn.eventC = some ⟨psig⟩ := by
  have hev : Transform.eventInfoOf node.type = .ok (some ⟨psig⟩) := by
    rw [hty]
    simp [Transform.eventInfoOf, Transform.firstArgOf, chromeEventRefTypes,
      Transform.customParams]
  cases hv : Transform.visit node ps with
  | error e =>
    have hok := visit_isOk node ps
    rw [hv, hne, hev] at hok
    simp at hok
  | ok pr =>
    obtain ⟨vn, rk⟩ := pr
    exact ⟨vn, rk, rfl, visit_ok_event_some hv hne hev⟩

theorem claim8_custom_witness :
    ∃ vn rk, Transform.visit w8 [] = .ok (vn, rk) ∧ vn.eventC = some ⟨some c8Params⟩ :=
  claim8_custom w8 [] (some c8Params) [] [] rfl (by decide)

/-- C9: a child rejected by the filter (private or underscore-prefixed
name) is dropped from the children traversal entirely: the walk of a
child list containing it equals the walk of the list without it, so it
is absent from the output children, it is never visited, and it
contributes no annotations and no registry entries. -/
theorem claim9_pruned (cnode : Node) (ps : List Node) (l₁ l₂ : NodeList)
    (h : Transform.filter cnode = false) :
    Transform.walkList (l₁.append (.cons cnode l₂)) ps
      = Transform.walkList (l₁.append l₂) ps := by
  induction l₁ with
  | hnil =>
    show Transform.walkList (.cons cnode l₂) ps = Transform.walkList l₂ ps
    exact walkList_cons_drop h
  | hcons c rest ih =>
    show Transform.walkList (.cons c (rest.append (.cons cnode l₂))) ps
      = Transform.walkList (.cons c (rest.append l₂)) ps
    by_cases hf : Transform.filter c = true
    · rw [walkList_cons_keep hf, walkList_cons_keep hf, ih]
    · rw [walkList_cons_drop (by simpa using hf),
        walkList_cons_drop (by simpa using hf), ih]

theorem claim9_pruned_witness :
    Transform.filter c9Hidden = false ∧
      Transform.walkList (NodeList.nil.append (.cons c9Hidden .nil)) []
        = Transform.walkList (NodeList.nil.append .nil) [] :=
  ⟨by decide, claim9_pruned c9Hidden [] .nil .nil (by decide)⟩

/-- C10: the registration decision uses the unfiltered child list: a
namespace node reached with some non-namespace child is registered first
in its subtree's registrations (under its fully-qualified name) even
when every non-namespace child is rejected by the filter, in which case
the output node has no non-namespace children left. -/
theorem claim10_unfiltered (node : Node) (ps : List Node) (cs : NodeList) (n' : Node)
    (reg : List (String × Node))
    (hch : node.children = some cs)
    (hk : node.kindString = some "Namespace")
    (hnn : Transform.hasNonNamespaceChild node = true)
    (hall : ∀ c ∈ cs.toList, c.kindString = some "Namespace" ∨ Transform.filter c = false)
    (hw : Transform.walk node ps = .ok (n', reg)) :
    (reg.map Prod.fst).head? = some (Transform.fqdnOf node ps) ∧
      Transform.hasNonNamespaceChild n' = false := by
  cases node with
  | mk nm k ocs f c t a b ev =>
    simp only [Node.children] at hch
    subst hch
    cases hv : Transform.visit (Node.mk nm k (some cs) f c t a b ev) ps with
    | error e =>
      rw [walk_err hv] at hw
      simp at hw
    | ok pr =>
      obtain ⟨vn, rk⟩ := pr
      rw [walk_some_ok hv] at hw
      cases hwl : Transform.walkList cs (ps ++ [vn]) with
      | error e =>
        rw [hwl] at hw
        simp at hw
      | ok pr2 =>
        obtain ⟨cs', sub⟩ := pr2
        rw [hwl] at hw
        simp only [Except.ok.injEq, Prod.mk.injEq] at hw
        obtain ⟨hw1, hw2⟩ := hw
        have hq : qualifies (Node.mk nm k (some cs) f c t a b ev) = true := by
          simp [qualifies, hk, hnn]
        have hrk := visit_ok_regKey hv
        rw [if_pos hq] at hrk
        subst hrk
        constructor
        · rw [← hw2]
          simp [Transform.regEntry]
        · rw [← hw1]
          cases vn with
          | mk nm2 k2 ocs2 f2 c2 t2 a2 b2 ev2 =>
            rw [show (Node.mk nm2 k2 ocs2 f2 c2 t2 a2 b2 ev2).setChildren (some cs')
                  = Node.mk nm2 k2 (some cs') f2 c2 t2 a2 b2 ev2 from rfl]
            rw [hasNonNamespaceChild_mk_some]
            rw [NodeList.any_eq_false]
            intro x hx
            rcases walkList_mem_kind hwl x hx with ⟨c0, hc0, hfc0, hn0, hk0⟩
            rcases hall c0 hc0 with hcase | hcase
            · simp [hk0, hcase]
            · rw [hcase] at hfc0
              cases hfc0

theorem claim10_unfiltered_witness :
    (([("ns10", c10Out)] : List (String × Node)).map Prod.fst).head? = some "ns10" ∧
      Transform.hasNonNamespaceChild c10Out = false :=
  claim10_unfiltered c10Ns [] (NodeList.ofList [c10Hidden]) c10Out [("ns10", c10Out)]
    rfl rfl (by decide)
    (fun c hc => by
      simp only [NodeList.ofList, NodeList.toList, List.mem_singleton] at hc
      subst hc
      exact Or.inr (by decide))
    rfl

end DtsParse
